import Mathlib

/-!
# Verification of the avatar gateway (`main.py`)

Shallow embedding of the session middleware, the OAuth callback, the
authorization check, the `/speak` endpoint and the SSE stream generator of
`src/main.py`, together with proofs of the specification claims.

Python JSON-serializable values are modelled by the inductive type `JVal`
(numbers restricted to integers; the session never stores floats).
A Python `dict` is an insertion-ordered association list with unique keys.
`None` is modelled by `JVal.null`, so `dict.get(k)` (default `None`) returns
a `JVal` directly.
-/

/-- Model of a Python JSON-serializable value (ints only, as the session
never holds floats). -/
inductive JVal where
  | null : JVal
  | bool (b : Bool) : JVal
  | num (n : Int) : JVal
  | str (s : String) : JVal
  | arr (elts : List JVal) : JVal
  | obj (fields : List (String × JVal)) : JVal

/-- A Python dict with string keys, insertion-ordered. -/
abbrev PyDict := List (String × JVal)

/-- Python truthiness (`bool(v)`) for modelled JSON values. -/
def jsonTruthy : JVal → Bool
  | .null => false
  | .bool b => b
  | .num n => n != 0
  | .str s => !(s == "")
  | .arr xs => !xs.isEmpty
  | .obj fs => !fs.isEmpty

/-- `d.get(k)` on a dict: the stored value, or `None` (= `JVal.null`) when
the key is absent. -/
def sget (s : PyDict) (k : String) : JVal :=
  match s.find? (fun p => p.1 == k) with
  | some p => p.2
  | none => .null

/-- `d.get(k, default)` on a dict. -/
def sgetD (s : PyDict) (k : String) (d : JVal) : JVal :=
  match s.find? (fun p => p.1 == k) with
  | some p => p.2
  | none => d

/-- `k in d` on a dict. -/
def smem (s : PyDict) (k : String) : Bool := s.any (fun p => p.1 == k)

/-- `d[k] = v` on a dict: replace in place when the key exists, else append
(insertion order preserved, as in Python). -/
def sset (s : PyDict) (k : String) (v : JVal) : PyDict :=
  if s.any (fun p => p.1 == k) then
    s.map (fun p => if p.1 == k then (k, v) else p)
  else s ++ [(k, v)]

/-- `d.pop(k, None)` on a dict (the removed value is discarded by the code). -/
def spop (s : PyDict) (k : String) : PyDict := s.filter (fun p => p.1 != k)

/-- `v.get(k)` where `v` is a `JVal` known to be a dict (`user.get("oid")`
in `check_authorization`); only ever applied to `JVal.obj` values, where it
matches Python's `dict.get`. -/
def jget (v : JVal) (k : String) : JVal :=
  match v with
  | .obj fs => sget fs k
  | _ => .null

/-- Python `x or y` (returns `x` when truthy, else `y`). -/
def pyOr (a b : JVal) : JVal := if jsonTruthy a then a else b

/- ## JSON printer (model of `json.dumps`)

Python's `json.dumps` with default separators: `", "` between items and
`": "` after keys; `"`, `\` and control characters are escaped. -/

/-- Lowercase hex digit for `n < 16`. -/
def hexDig (n : Nat) : Char :=
  if n < 10 then Char.ofNat (48 + n) else Char.ofNat (87 + n)

/-- Escape one character of a JSON string, as `json.dumps` does. -/
def escapeChar (c : Char) : List Char :=
  if c = '"' then ['\\', '"']
  else if c = '\\' then ['\\', '\\']
  else if c = '\n' then ['\\', 'n']
  else if c = '\t' then ['\\', 't']
  else if c = '\r' then ['\\', 'r']
  else if c = Char.ofNat 8 then ['\\', 'b']
  else if c = Char.ofNat 12 then ['\\', 'f']
  else if c.toNat < 32 then
    ['\\', 'u', '0', '0', hexDig (c.toNat / 16), hexDig (c.toNat % 16)]
  else [c]

/-- Print a JSON string literal (quotes and escapes). -/
def printString (s : String) : List Char :=
  '"' :: (s.data.flatMap escapeChar) ++ ['"']

/-- Decimal digits of `n`, most significant first. -/
def printNat (n : Nat) : List Char :=
  if n = 0 then ['0']
  else (Nat.digits 10 n).reverse.map (fun d => Char.ofNat (48 + d))

/-- Print an integer (as Python prints ints). -/
def printInt : Int → List Char
  | .ofNat n => printNat n
  | .negSucc m => '-' :: printNat (m + 1)

mutual
/-- Serialize a `JVal` (model of `json.dumps` with default separators). -/
def printJVal : JVal → List Char
  | .null => "null".data
  | .bool true => "true".data
  | .bool false => "false".data
  | .num n => printInt n
  | .str s => printString s
  | .arr xs => '[' :: printElems xs ++ [']']
  | .obj fs => '{' :: printFields fs ++ ['}']

/-- Array elements, separated by `", "`. -/
def printElems : List JVal → List Char
  | [] => []
  | [x] => printJVal x
  | x :: y :: rest => printJVal x ++ ',' :: ' ' :: printElems (y :: rest)

/-- Object fields `"k": v`, separated by `", "`. -/
def printFields : List (String × JVal) → List Char
  | [] => []
  | [(k, v)] => printString k ++ ':' :: ' ' :: printJVal v
  | (k, v) :: f :: rest =>
      printString k ++ ':' :: ' ' :: printJVal v ++ ',' :: ' ' :: printFields (f :: rest)
end

/-- `json.dumps` on a modelled value. -/
def jsonDumps (v : JVal) : String := String.mk (printJVal v)

/- ## JSON parser (model of `json.loads`, integer-numeric fragment) -/

/-- JSON whitespace. -/
def isWsChar (c : Char) : Bool :=
  c == '\t' || c == '\n' || c == '\r' || c == ' '

/-- Skip leading JSON whitespace. -/
def skipWs : List Char → List Char
  | [] => []
  | c :: rest => if isWsChar c then skipWs rest else c :: rest

/-- Value of a hex digit character. -/
def hexVal (c : Char) : Option Nat :=
  if '0' ≤ c ∧ c ≤ '9' then some (c.toNat - 48)
  else if 'a' ≤ c ∧ c ≤ 'f' then some (c.toNat - 87)
  else if 'A' ≤ c ∧ c ≤ 'F' then some (c.toNat - 55)
  else none

/-- Decode a short escape character. -/
def unescape (c : Char) : Option Char :=
  if c = '"' then some '"'
  else if c = '\\' then some '\\'
  else if c = '/' then some '/'
  else if c = 'b' then some (Char.ofNat 8)
  else if c = 'f' then some (Char.ofNat 12)
  else if c = 'n' then some '\n'
  else if c = 'r' then some '\r'
  else if c = 't' then some '\t'
  else none

/-- Parse the body of a JSON string literal (after the opening quote),
returning the decoded characters and the input after the closing quote. -/
def parseStringBody : List Char → Option (List Char × List Char)
  | [] => none
  | c :: rest =>
    if c = '"' then some ([], rest)
    else if c = '\\' then
      match rest with
      | 'u' :: a :: b :: x :: y :: rest' => do
          let ha ← hexVal a
          let hb ← hexVal b
          let hx ← hexVal x
          let hy ← hexVal y
          let (cs, r) ← parseStringBody rest'
          some (Char.ofNat (((ha * 16 + hb) * 16 + hx) * 16 + hy) :: cs, r)
      | e :: rest' => do
          let c' ← unescape e
          let (cs, r) ← parseStringBody rest'
          some (c' :: cs, r)
      | [] => none
    else do
      let (cs, r) ← parseStringBody rest
      some (c :: cs, r)

/-- Read a maximal run of decimal digits (values), leaving the rest. -/
def parseDigits : List Char → List Nat × List Char
  | [] => ([], [])
  | c :: rest =>
    if c.isDigit then
      let (ds, r) := parseDigits rest
      ((c.toNat - 48) :: ds, r)
    else ([], c :: rest)

/-- Value of a most-significant-first digit list. -/
def natFromDigits (ds : List Nat) : Nat := ds.foldl (fun a d => a * 10 + d) 0

/-- Parse an integer JSON number. -/
def parseNum : List Char → Option (JVal × List Char)
  | [] => none
  | c :: rest =>
    if c = '-' then
      match parseDigits rest with
      | ([], _) => none
      | (ds, r) => some (.num (-(natFromDigits ds : Int)), r)
    else
      match parseDigits (c :: rest) with
      | ([], _) => none
      | (ds, r) => some (.num (natFromDigits ds), r)

/-- Literal keyword continuations (`ull`, `rue`, `alse`) after the first
character of `null` / `true` / `false`. -/
def expectLit : List Char → List Char → Option (List Char)
  | [], rest => some rest
  | l :: ls, c :: rest => if c = l then expectLit ls rest else none
  | _ :: _, [] => none

mutual
/-- Parse one JSON value. All parsing functions spend one unit of fuel per
step; `jsonLoads` supplies ample fuel for any input. -/
def parseVal : Nat → List Char → Option (JVal × List Char)
  | 0, _ => none
  | fuel + 1, input => parseValStart fuel (skipWs input)

/-- Dispatch on the first significant character of a value. -/
def parseValStart : Nat → List Char → Option (JVal × List Char)
  | 0, _ => none
  | _ + 1, [] => none
  | fuel + 1, c :: r =>
    if c = 'n' then do
      let rr ← expectLit ['u', 'l', 'l'] r
      some (JVal.null, rr)
    else if c = 't' then do
      let rr ← expectLit ['r', 'u', 'e'] r
      some (JVal.bool true, rr)
    else if c = 'f' then do
      let rr ← expectLit ['a', 'l', 's', 'e'] r
      some (JVal.bool false, rr)
    else if c = '"' then do
      let (cs, rr) ← parseStringBody r
      some (JVal.str (String.mk cs), rr)
    else if c = '[' then parseArrTail fuel (skipWs r)
    else if c = '{' then parseObjTail fuel (skipWs r)
    else parseNum (c :: r)

/-- After `[`: empty array or the element list. -/
def parseArrTail : Nat → List Char → Option (JVal × List Char)
  | 0, _ => none
  | _ + 1, [] => none
  | fuel + 1, d :: rr =>
    if d = ']' then some (JVal.arr [], rr)
    else do
      let (xs, r') ← parseElems fuel (d :: rr)
      some (JVal.arr xs, r')

/-- After `{`: empty object or the field list. -/
def parseObjTail : Nat → List Char → Option (JVal × List Char)
  | 0, _ => none
  | _ + 1, [] => none
  | fuel + 1, d :: rr =>
    if d = '}' then some (JVal.obj [], rr)
    else do
      let (fs, r') ← parseFields fuel (d :: rr)
      some (JVal.obj fs, r')

/-- Elements of a non-empty array, up to and including `]`. -/
def parseElems : Nat → List Char → Option (List JVal × List Char)
  | 0, _ => none
  | fuel + 1, input => do
    let (v, r) ← parseVal fuel input
    parseElemsRest fuel v (skipWs r)

/-- After one element: `,` and more elements, or the closing `]`. -/
def parseElemsRest : Nat → JVal → List Char → Option (List JVal × List Char)
  | 0, _, _ => none
  | _ + 1, _, [] => none
  | fuel + 1, v, d :: r' =>
    if d = ',' then do
      let (vs, r'') ← parseElems fuel r'
      some (v :: vs, r'')
    else if d = ']' then some ([v], r')
    else none

/-- Fields of a non-empty object, up to and including `}`. -/
def parseFields : Nat → List Char → Option (List (String × JVal) × List Char)
  | 0, _ => none
  | fuel + 1, input => parseFieldsStart fuel (skipWs input)

/-- A field must start with a quoted key. -/
def parseFieldsStart : Nat → List Char → Option (List (String × JVal) × List Char)
  | 0, _ => none
  | _ + 1, [] => none
  | fuel + 1, c :: r =>
    if c = '"' then do
      let (k, r1) ← parseStringBody r
      parseFieldsColon fuel (String.mk k) (skipWs r1)
    else none

/-- After the key: `:` and the value. -/
def parseFieldsColon : Nat → String → List Char → Option (List (String × JVal) × List Char)
  | 0, _, _ => none
  | _ + 1, _, [] => none
  | fuel + 1, k, e :: r2 =>
    if e = ':' then do
      let (v, r3) ← parseVal fuel r2
      parseFieldsComma fuel k v (skipWs r3)
    else none

/-- After one field: `,` and more fields, or the closing `}`. -/
def parseFieldsComma : Nat → String → JVal → List Char
    → Option (List (String × JVal) × List Char)
  | 0, _, _, _ => none
  | _ + 1, _, _, [] => none
  | fuel + 1, k, v, g :: r4 =>
    if g = ',' then do
      let (fs, r5) ← parseFields fuel r4
      some ((k, v) :: fs, r5)
    else if g = '}' then some ([(k, v)], r4)
    else none
end

/-- `json.loads`: parse a full document; trailing non-whitespace is an error
(and yields `none`, which the middleware degrades to an empty session). -/
def jsonLoads (s : String) : Option JVal :=
  match parseVal (3 * s.length + 3) s.data with
  | some (v, rest) => if skipWs rest = [] then some v else none
  | none => none

/- ## Round trip of the JSON encoding -/

/-- `true` when the input does not begin with a digit (so a parsed number
just before it cannot absorb it). -/
def restOk : List Char → Bool
  | [] => true
  | c :: _ => !c.isDigit

/-- Hex digits printed by the escaper decode to themselves. -/
theorem hexVal_hexDig (n : Nat) (h : n < 16) : hexVal (hexDig n) = some n := by
  interval_cases n <;> rfl

/-- String-escape round trip: the escaped characters followed by the closing
quote parse back to the original characters. -/
theorem parseStringBody_escape (s rest : List Char) :
    parseStringBody (s.flatMap escapeChar ++ '"' :: rest) = some (s, rest) := by
  induction s with
  | nil =>
    simp only [List.flatMap_nil, List.nil_append]
    unfold parseStringBody
    rw [if_pos rfl]
  | cons c cs ih =>
    show parseStringBody ((escapeChar c ++ cs.flatMap escapeChar) ++ '"' :: rest) = _
    rw [List.append_assoc]
    by_cases h1 : c = '"'
    · subst h1; simp [escapeChar, parseStringBody, unescape, ih]
    · by_cases h2 : c = '\\'
      · subst h2; simp [escapeChar, parseStringBody, unescape, ih]
      · by_cases h3 : c = '\n'
        · subst h3; simp [escapeChar, parseStringBody, unescape, ih]
        · by_cases h4 : c = '\t'
          · subst h4; simp [escapeChar, parseStringBody, unescape, ih]
          · by_cases h5 : c = '\r'
            · subst h5; simp [escapeChar, parseStringBody, unescape, ih]
            · by_cases h6 : c = Char.ofNat 8
              · subst h6; simp [escapeChar, parseStringBody, unescape, ih]
              · by_cases h7 : c = Char.ofNat 12
                · subst h7; simp [escapeChar, parseStringBody, unescape, ih]
                · by_cases h8 : c.toNat < 32
                  · have e : escapeChar c =
                        ['\\', 'u', '0', '0', hexDig (c.toNat / 16), hexDig (c.toNat % 16)] := by
                      simp [escapeChar, h1, h2, h3, h4, h5, h6, h7, h8]
                    rw [e]
                    have hv0 : hexVal '0' = some 0 := by decide
                    have hv1 : hexVal (hexDig (c.toNat / 16)) = some (c.toNat / 16) :=
                      hexVal_hexDig _ (by omega)
                    have hv2 : hexVal (hexDig (c.toNat % 16)) = some (c.toNat % 16) :=
                      hexVal_hexDig _ (by omega)
                    have hchar : c.toNat / 16 * 16 + c.toNat % 16 = c.toNat := by
                      omega
                    simp [parseStringBody, hv0, hv1, hv2, hchar, Char.ofNat_toNat, ih]
                  · have e : escapeChar c = [c] := by
                      simp [escapeChar, h1, h2, h3, h4, h5, h6, h7, h8]
                    rw [e]
                    show parseStringBody (c :: _) = _
                    unfold parseStringBody
                    rw [if_neg h1, if_neg h2]
                    simp [ih]

/-- A digit character is none of the keyword/punctuation start characters
and is not whitespace. -/
theorem isDigit_facts {c : Char} (h : c.isDigit = true) :
    c ≠ 'n' ∧ c ≠ 't' ∧ c ≠ 'f' ∧ c ≠ '"' ∧ c ≠ '[' ∧ c ≠ '{' ∧ c ≠ '-' ∧
    c ≠ ']' ∧ c ≠ '}' ∧ c ≠ ',' ∧ isWsChar c = false := by
  refine ⟨?_, ?_, ?_, ?_, ?_, ?_, ?_, ?_, ?_, ?_, ?_⟩
  · intro e; rw [e] at h; exact absurd h (by decide)
  · intro e; rw [e] at h; exact absurd h (by decide)
  · intro e; rw [e] at h; exact absurd h (by decide)
  · intro e; rw [e] at h; exact absurd h (by decide)
  · intro e; rw [e] at h; exact absurd h (by decide)
  · intro e; rw [e] at h; exact absurd h (by decide)
  · intro e; rw [e] at h; exact absurd h (by decide)
  · intro e; rw [e] at h; exact absurd h (by decide)
  · intro e; rw [e] at h; exact absurd h (by decide)
  · intro e; rw [e] at h; exact absurd h (by decide)
  · cases hw : isWsChar c with
    | false => rfl
    | true =>
      exfalso
      simp only [isWsChar, Bool.or_eq_true, beq_iff_eq] at hw
      rcases hw with ((rfl | rfl) | rfl) | rfl <;> exact absurd h (by decide)

/-- Skipping whitespace leaves a non-whitespace-headed list unchanged. -/
theorem skipWs_notWs {c : Char} (h : isWsChar c = false) (l : List Char) :
    skipWs (c :: l) = c :: l := by
  simp [skipWs, h]

/-- Skipping whitespace drops a whitespace head. -/
theorem skipWs_ws {c : Char} (h : isWsChar c = true) (l : List Char) :
    skipWs (c :: l) = skipWs l := by
  simp [skipWs, h]

/-- `parseVal` ignores a leading whitespace character. -/
theorem parseVal_cons_ws {c : Char} (h : isWsChar c = true) (fuel : Nat) (input : List Char) :
    parseVal fuel (c :: input) = parseVal fuel input := by
  cases fuel with
  | zero => rfl
  | succ f => unfold parseVal; rw [skipWs_ws h]

/-- `parseElems` ignores a leading whitespace character. -/
theorem parseElems_cons_ws {c : Char} (h : isWsChar c = true) (fuel : Nat) (input : List Char) :
    parseElems fuel (c :: input) = parseElems fuel input := by
  cases fuel with
  | zero => rfl
  | succ f => unfold parseElems; rw [parseVal_cons_ws h]

/-- `parseFields` ignores a leading whitespace character. -/
theorem parseFields_cons_ws {c : Char} (h : isWsChar c = true) (fuel : Nat) (input : List Char) :
    parseFields fuel (c :: input) = parseFields fuel input := by
  cases fuel with
  | zero => rfl
  | succ f => unfold parseFields; rw [skipWs_ws h]

/-- The characters printed for a decimal digit decode back to it. -/
theorem digitChar_facts (d : Nat) (h : d < 10) :
    (Char.ofNat (48 + d)).isDigit = true ∧ (Char.ofNat (48 + d)).toNat - 48 = d := by
  interval_cases d <;> exact ⟨by decide, by decide⟩

/-- Every character of `printNat n` is a digit. -/
theorem printNat_all_digits (n : Nat) : ∀ c ∈ printNat n, c.isDigit = true := by
  intro c hc
  unfold printNat at hc
  by_cases h : n = 0
  · rw [if_pos h] at hc
    simp at hc
    rw [hc]; decide
  · rw [if_neg h] at hc
    simp only [List.mem_map, List.mem_reverse] at hc
    obtain ⟨d, hd, rfl⟩ := hc
    have hlt : d < 10 := Nat.digits_lt_base (by omega) hd
    exact (digitChar_facts d hlt).1

/-- `printNat` never prints the empty list. -/
theorem printNat_ne_nil (n : Nat) : printNat n ≠ [] := by
  unfold printNat
  by_cases h : n = 0
  · rw [if_pos h]; simp
  · rw [if_neg h]
    simp only [ne_eq, List.map_eq_nil_iff, List.reverse_eq_nil_iff]
    exact Nat.digits_ne_nil_iff_ne_zero.mpr h

/-- `parseDigits` consumes exactly a leading block of digits. -/
theorem parseDigits_append (l rest : List Char) (hl : ∀ c ∈ l, c.isDigit = true)
    (hr : restOk rest = true) :
    parseDigits (l ++ rest) = (l.map (fun c => c.toNat - 48), rest) := by
  induction l with
  | nil =>
    simp only [List.nil_append, List.map_nil]
    cases rest with
    | nil => rfl
    | cons c t =>
      have : c.isDigit = false := by
        simp only [restOk, Bool.not_eq_true'] at hr
        exact hr
      simp [parseDigits, this]
  | cons c t ih =>
    have hc : c.isDigit = true := hl c (List.mem_cons_self c t)
    simp only [List.cons_append, List.map_cons]
    unfold parseDigits
    rw [if_pos hc, ih (fun x hx => hl x (List.mem_cons_of_mem c hx))]

/-- Most-significant-first refolding of `Nat.digits` restores the number. -/
theorem natFromDigits_printNat (n : Nat) :
    natFromDigits ((printNat n).map (fun c => c.toNat - 48)) = n := by
  unfold printNat
  by_cases h : n = 0
  · rw [if_pos h]; subst h; decide
  · rw [if_neg h]
    have hmap : ((Nat.digits 10 n).reverse.map (fun d => Char.ofNat (48 + d))).map
        (fun c => c.toNat - 48) = (Nat.digits 10 n).reverse := by
      rw [List.map_map]
      have : ∀ d ∈ (Nat.digits 10 n).reverse,
          ((fun c => c.toNat - 48) ∘ fun d => Char.ofNat (48 + d)) d = id d := by
        intro d hd
        have hlt : d < 10 := Nat.digits_lt_base (by omega) (List.mem_reverse.mp hd)
        simp only [Function.comp_apply, id_eq]
        exact (digitChar_facts d hlt).2
      rw [List.map_congr_left this, List.map_id]
    rw [hmap]
    unfold natFromDigits
    rw [List.foldl_reverse]
    have : ∀ l : List Nat, l.foldr (fun x y => y * 10 + x) 0 = Nat.ofDigits 10 l := by
      intro l
      induction l with
      | nil => simp [Nat.ofDigits]
      | cons d t iht => simp [Nat.ofDigits_cons, iht]; omega
    rw [this]
    exact_mod_cast Nat.ofDigits_digits 10 n

/-- One-step unfolding of `parseNum` on a non-empty input. -/
theorem parseNum_cons (c : Char) (rest : List Char) :
    parseNum (c :: rest) =
      if c = '-' then
        match parseDigits rest with
        | ([], _) => none
        | (ds, r) => some (.num (-(natFromDigits ds : Int)), r)
      else
        match parseDigits (c :: rest) with
        | ([], _) => none
        | (ds, r) => some (.num (natFromDigits ds), r) := rfl

/-- Number round trip: a printed integer parses back to itself. -/
theorem parseNum_print (n : Int) (rest : List Char) (hr : restOk rest = true) :
    parseNum (printInt n ++ rest) = some (.num n, rest) := by
  cases n with
  | ofNat m =>
    show parseNum (printNat m ++ rest) = some (.num (m : Int), rest)
    cases hp : printNat m with
    | nil => exact absurd hp (printNat_ne_nil m)
    | cons c t =>
      have hall : ∀ x ∈ c :: t, x.isDigit = true := hp ▸ printNat_all_digits m
      have hc : c.isDigit = true := hall c (List.mem_cons_self c t)
      have hne : c ≠ '-' := (isDigit_facts hc).2.2.2.2.2.2.1
      show parseNum ((c :: t) ++ rest) = _
      rw [List.cons_append, parseNum_cons, if_neg hne, ← List.cons_append,
        parseDigits_append (c :: t) rest hall hr]
      have := natFromDigits_printNat m
      rw [hp] at this
      rw [List.map_cons] at this
      simp [this]
  | negSucc m =>
    show parseNum (('-' :: printNat (m + 1)) ++ rest) = _
    cases hp : printNat (m + 1) with
    | nil => exact absurd hp (printNat_ne_nil (m + 1))
    | cons c t =>
      have hall : ∀ x ∈ c :: t, x.isDigit = true := hp ▸ printNat_all_digits (m + 1)
      rw [List.cons_append, parseNum_cons, if_pos rfl,
        parseDigits_append (c :: t) rest hall hr]
      have := natFromDigits_printNat (m + 1)
      rw [hp] at this
      simp only [List.map_cons]
      rw [show ((c :: t).map (fun c => c.toNat - 48)) =
        (c.toNat - 48) :: t.map (fun c => c.toNat - 48) from rfl] at this
      simp [this, Int.negSucc_eq]


mutual
/-- Fuel sufficient for parsing a printed value. -/
def jsize : JVal → Nat
  | .null => 2
  | .bool _ => 2
  | .num _ => 2
  | .str _ => 2
  | .arr xs => 3 + jsizeL xs
  | .obj fs => 3 + jsizeF fs

/-- Fuel sufficient for a printed element list. -/
def jsizeL : List JVal → Nat
  | [] => 0
  | x :: t => 2 + jsize x + jsizeL t

/-- Fuel sufficient for a printed field list. -/
def jsizeF : List (String × JVal) → Nat
  | [] => 0
  | (_, v) :: t => 4 + jsize v + jsizeF t
end

/-- Characters that can start a printed JSON value. -/
def jstart (c : Char) : Bool :=
  c == 'n' || c == 't' || c == 'f' || c == '"' || c == '[' || c == '{' || c == '-' || c.isDigit

/-- A value-start character is not whitespace and not a closing delimiter. -/
theorem jstart_facts {c : Char} (h : jstart c = true) :
    isWsChar c = false ∧ c ≠ ']' ∧ c ≠ '}' ∧ c ≠ ',' := by
  simp only [jstart, Bool.or_eq_true, beq_iff_eq] at h
  rcases h with ((((((rfl | rfl) | rfl) | rfl) | rfl) | rfl) | rfl) | hd
  · exact ⟨by decide, by decide, by decide, by decide⟩
  · exact ⟨by decide, by decide, by decide, by decide⟩
  · exact ⟨by decide, by decide, by decide, by decide⟩
  · exact ⟨by decide, by decide, by decide, by decide⟩
  · exact ⟨by decide, by decide, by decide, by decide⟩
  · exact ⟨by decide, by decide, by decide, by decide⟩
  · exact ⟨by decide, by decide, by decide, by decide⟩
  · obtain ⟨-, -, -, -, -, -, -, h1, h2, h3, h4⟩ := isDigit_facts hd
    exact ⟨h4, h1, h2, h3⟩

/-- A printed value is non-empty and starts with a value-start character. -/
theorem printJVal_head (v : JVal) :
    ∃ c t, printJVal v = c :: t ∧ jstart c = true := by
  cases v with
  | null => exact ⟨'n', _, rfl, by decide⟩
  | bool b => cases b with
    | true => exact ⟨'t', _, rfl, by decide⟩
    | false => exact ⟨'f', _, rfl, by decide⟩
  | num n =>
    cases n with
    | ofNat m =>
      cases hp : printNat m with
      | nil => exact absurd hp (printNat_ne_nil m)
      | cons c t =>
        refine ⟨c, t, hp, ?_⟩
        have hc : c.isDigit = true :=
          (hp ▸ printNat_all_digits m) c (List.mem_cons_self c t)
        simp [jstart, hc]
    | negSucc m => exact ⟨'-', _, rfl, by decide⟩
  | str s => exact ⟨'"', _, rfl, by decide⟩
  | arr xs => exact ⟨'[', _, rfl, by decide⟩
  | obj fs => exact ⟨'{', _, rfl, by decide⟩

/-- Separator-and-elements continuation after the first array element. -/
def elemTail : List JVal → List Char
  | [] => []
  | y :: t => ',' :: ' ' :: printElems (y :: t)

/-- `printElems` decomposes into the first element and its continuation. -/
theorem printElems_cons (x : JVal) (t : List JVal) :
    printElems (x :: t) = printJVal x ++ elemTail t := by
  cases t with
  | nil => simp [printElems, elemTail]
  | cons y t' => simp [printElems, elemTail]

/-- Separator-and-fields continuation after the first object field. -/
def fieldTail : List (String × JVal) → List Char
  | [] => []
  | f :: t => ',' :: ' ' :: printFields (f :: t)

/-- `printFields` decomposes into the first field and its continuation. -/
theorem printFields_cons (k : String) (v : JVal) (t : List (String × JVal)) :
    printFields ((k, v) :: t) =
      printString k ++ ':' :: ' ' :: printJVal v ++ fieldTail t := by
  cases t with
  | nil => simp [printFields, fieldTail]
  | cons f t' => simp [printFields, fieldTail]

/-- Every value needs at least two units of fuel. -/
theorem jsize_two_le (v : JVal) : 2 ≤ jsize v := by
  cases v <;> simp [jsize] <;> omega

/-- One-step unfolding of `parseVal` at positive fuel. -/
theorem parseVal_eq (f : Nat) (input : List Char) :
    parseVal (f + 1) input = parseValStart f (skipWs input) := rfl

/-- One-step unfolding of `parseValStart` on a non-empty input. -/
theorem parseValStart_eq (f : Nat) (c : Char) (r : List Char) :
    parseValStart (f + 1) (c :: r) =
      (if c = 'n' then do
        let rr ← expectLit ['u', 'l', 'l'] r
        some (JVal.null, rr)
      else if c = 't' then do
        let rr ← expectLit ['r', 'u', 'e'] r
        some (JVal.bool true, rr)
      else if c = 'f' then do
        let rr ← expectLit ['a', 'l', 's', 'e'] r
        some (JVal.bool false, rr)
      else if c = '"' then do
        let (cs, rr) ← parseStringBody r
        some (JVal.str (String.mk cs), rr)
      else if c = '[' then parseArrTail f (skipWs r)
      else if c = '{' then parseObjTail f (skipWs r)
      else parseNum (c :: r)) := rfl

/-- One-step unfolding of `parseArrTail` on a non-empty input. -/
theorem parseArrTail_eq (f : Nat) (d : Char) (rr : List Char) :
    parseArrTail (f + 1) (d :: rr) =
      (if d = ']' then some (JVal.arr [], rr)
      else do
        let (xs, r') ← parseElems f (d :: rr)
        some (JVal.arr xs, r')) := rfl

/-- One-step unfolding of `parseObjTail` on a non-empty input. -/
theorem parseObjTail_eq (f : Nat) (d : Char) (rr : List Char) :
    parseObjTail (f + 1) (d :: rr) =
      (if d = '}' then some (JVal.obj [], rr)
      else do
        let (fs, r') ← parseFields f (d :: rr)
        some (JVal.obj fs, r')) := rfl

/-- One-step unfolding of `parseElems` at positive fuel. -/
theorem parseElems_eq (f : Nat) (input : List Char) :
    parseElems (f + 1) input = (do
      let (v, r) ← parseVal f input
      parseElemsRest f v (skipWs r)) := rfl

/-- One-step unfolding of `parseElemsRest` on a non-empty input. -/
theorem parseElemsRest_eq (f : Nat) (v : JVal) (d : Char) (r' : List Char) :
    parseElemsRest (f + 1) v (d :: r') =
      (if d = ',' then do
        let (vs, r'') ← parseElems f r'
        some (v :: vs, r'')
      else if d = ']' then some ([v], r')
      else none) := rfl

/-- One-step unfolding of `parseFields` at positive fuel. -/
theorem parseFields_eq (f : Nat) (input : List Char) :
    parseFields (f + 1) input = parseFieldsStart f (skipWs input) := rfl

/-- One-step unfolding of `parseFieldsStart` on a non-empty input. -/
theorem parseFieldsStart_eq (f : Nat) (c : Char) (r : List Char) :
    parseFieldsStart (f + 1) (c :: r) =
      (if c = '"' then do
        let (k, r1) ← parseStringBody r
        parseFieldsColon f (String.mk k) (skipWs r1)
      else none) := rfl

/-- One-step unfolding of `parseFieldsColon` on a non-empty input. -/
theorem parseFieldsColon_eq (f : Nat) (k : String) (e : Char) (r2 : List Char) :
    parseFieldsColon (f + 1) k (e :: r2) =
      (if e = ':' then do
        let (v, r3) ← parseVal f r2
        parseFieldsComma f k v (skipWs r3)
      else none) := rfl

/-- One-step unfolding of `parseFieldsComma` on a non-empty input. -/
theorem parseFieldsComma_eq (f : Nat) (k : String) (v : JVal) (g : Char) (r4 : List Char) :
    parseFieldsComma (f + 1) k v (g :: r4) =
      (if g = ',' then do
        let (fs, r5) ← parseFields f r4
        some ((k, v) :: fs, r5)
      else if g = '}' then some ([(k, v)], r4)
      else none) := rfl

mutual
/-- Value round trip: a printed value parses back to itself, given enough
fuel, when no digit immediately follows. -/
theorem parseVal_print (fuel : Nat) (v : JVal) (rest : List Char)
    (hs : jsize v ≤ fuel) (hr : restOk rest = true) :
    parseVal fuel (printJVal v ++ rest) = some (v, rest) := by
  cases fuel with
  | zero => have := jsize_two_le v; omega
  | succ f =>
    cases v with
    | null =>
      cases f with
      | zero => exact absurd hs (by decide)
      | succ g =>
        show parseVal (g + 1 + 1) (['n', 'u', 'l', 'l'] ++ rest) = _
        rw [show (['n', 'u', 'l', 'l'] ++ rest : List Char)
            = 'n' :: 'u' :: 'l' :: 'l' :: rest from rfl]
        rw [parseVal_eq, skipWs_notWs (by decide), parseValStart_eq, if_pos rfl]
        rfl
    | bool b =>
      cases f with
      | zero => exact absurd hs (by cases b <;> decide)
      | succ g =>
        cases b with
        | true =>
          show parseVal (g + 1 + 1) (['t', 'r', 'u', 'e'] ++ rest) = _
          rw [show (['t', 'r', 'u', 'e'] ++ rest : List Char)
              = 't' :: 'r' :: 'u' :: 'e' :: rest from rfl]
          rw [parseVal_eq, skipWs_notWs (by decide), parseValStart_eq,
            if_neg (by decide), if_pos rfl]
          rfl
        | false =>
          show parseVal (g + 1 + 1) (['f', 'a', 'l', 's', 'e'] ++ rest) = _
          rw [show (['f', 'a', 'l', 's', 'e'] ++ rest : List Char)
              = 'f' :: 'a' :: 'l' :: 's' :: 'e' :: rest from rfl]
          rw [parseVal_eq, skipWs_notWs (by decide), parseValStart_eq,
            if_neg (by decide), if_neg (by decide), if_pos rfl]
          rfl
    | num n =>
      cases f with
      | zero =>
        have e : jsize (JVal.num n) = 2 := rfl
        omega
      | succ g =>
        cases n with
        | ofNat m =>
          show parseVal (g + 1 + 1) (printNat m ++ rest) = _
          cases hp : printNat m with
          | nil => exact absurd hp (printNat_ne_nil m)
          | cons c t =>
            have hall : ∀ x ∈ c :: t, x.isDigit = true := hp ▸ printNat_all_digits m
            have hc : c.isDigit = true := hall c (List.mem_cons_self c t)
            obtain ⟨k1, k2, k3, k4, k5, k6, -, -, -, -, k11⟩ := isDigit_facts hc
            rw [List.cons_append, parseVal_eq, skipWs_notWs k11, parseValStart_eq,
              if_neg k1, if_neg k2, if_neg k3, if_neg k4, if_neg k5, if_neg k6]
            rw [← List.cons_append, ← hp]
            exact parseNum_print (Int.ofNat m) rest hr
        | negSucc m =>
          show parseVal (g + 1 + 1) (('-' :: printNat (m + 1)) ++ rest) = _
          rw [List.cons_append, parseVal_eq, skipWs_notWs (by decide), parseValStart_eq,
            if_neg (by decide), if_neg (by decide), if_neg (by decide),
            if_neg (by decide), if_neg (by decide), if_neg (by decide)]
          rw [← List.cons_append]
          exact parseNum_print (Int.negSucc m) rest hr
    | str s =>
      cases f with
      | zero =>
        have e : jsize (JVal.str s) = 2 := rfl
        omega
      | succ g =>
        obtain ⟨cs⟩ := s
        show parseVal (g + 1 + 1) (('"' :: (cs.flatMap escapeChar ++ ['"'])) ++ rest) = _
        rw [List.cons_append, List.append_assoc, List.singleton_append]
        rw [parseVal_eq, skipWs_notWs (by decide), parseValStart_eq,
          if_neg (by decide), if_neg (by decide), if_neg (by decide), if_pos rfl]
        rw [parseStringBody_escape cs rest]
        rfl
    | arr xs =>
      have e : jsize (JVal.arr xs) = 3 + jsizeL xs := rfl
      cases f with
      | zero => omega
      | succ g =>
        cases xs with
        | nil =>
          show parseVal (g + 1 + 1) (('[' :: ([] ++ [']'])) ++ rest) = _
          rw [show (('[' :: ([] ++ [']'])) ++ rest : List Char) = '[' :: ']' :: rest from rfl]
          rw [parseVal_eq, skipWs_notWs (by decide), parseValStart_eq,
            if_neg (by decide), if_neg (by decide), if_neg (by decide),
            if_neg (by decide), if_pos rfl]
          rw [skipWs_notWs (by decide)]
          cases g with
          | zero => exact absurd hs (by decide)
          | succ h =>
            rw [parseArrTail_eq, if_pos rfl]
        | cons x t =>
          have e1 : jsizeL (x :: t) = 2 + jsize x + jsizeL t := rfl
          show parseVal (g + 1 + 1) (('[' :: (printElems (x :: t) ++ [']'])) ++ rest) = _
          rw [List.cons_append, List.append_assoc, List.singleton_append]
          rw [parseVal_eq, skipWs_notWs (by decide), parseValStart_eq,
            if_neg (by decide), if_neg (by decide), if_neg (by decide),
            if_neg (by decide), if_pos rfl]
          obtain ⟨c, tx, hx, hstart⟩ := printJVal_head x
          obtain ⟨hws, hrb, -, -⟩ := jstart_facts hstart
          have hdec : printElems (x :: t) ++ ']' :: rest
              = c :: (tx ++ (elemTail t ++ ']' :: rest)) := by
            rw [printElems_cons, hx]; simp
          rw [hdec, skipWs_notWs hws]
          cases g with
          | zero => omega
          | succ h =>
            rw [parseArrTail_eq, if_neg hrb]
            have hE : parseElems h (c :: (tx ++ (elemTail t ++ ']' :: rest)))
                = some (x :: t, rest) := by
              rw [← hdec]
              exact parseElems_print h (x :: t) rest (by simp) (by omega)
            rw [hE]
            rfl
    | obj fs =>
      have e : jsize (JVal.obj fs) = 3 + jsizeF fs := rfl
      cases f with
      | zero => omega
      | succ g =>
        cases fs with
        | nil =>
          show parseVal (g + 1 + 1) (('{' :: ([] ++ ['}'])) ++ rest) = _
          rw [show (('{' :: ([] ++ ['}'])) ++ rest : List Char) = '{' :: '}' :: rest from rfl]
          rw [parseVal_eq, skipWs_notWs (by decide), parseValStart_eq,
            if_neg (by decide), if_neg (by decide), if_neg (by decide),
            if_neg (by decide), if_neg (by decide), if_pos rfl]
          rw [skipWs_notWs (by decide)]
          cases g with
          | zero => exact absurd hs (by decide)
          | succ h =>
            rw [parseObjTail_eq, if_pos rfl]
        | cons kv t =>
          obtain ⟨k, v⟩ := kv
          have e1 : jsizeF ((k, v) :: t) = 4 + jsize v + jsizeF t := rfl
          show parseVal (g + 1 + 1) (('{' :: (printFields ((k, v) :: t) ++ ['}'])) ++ rest) = _
          rw [List.cons_append, List.append_assoc, List.singleton_append]
          rw [parseVal_eq, skipWs_notWs (by decide), parseValStart_eq,
            if_neg (by decide), if_neg (by decide), if_neg (by decide),
            if_neg (by decide), if_neg (by decide), if_pos rfl]
          have hdec : printFields ((k, v) :: t) ++ '}' :: rest
              = '"' :: (k.data.flatMap escapeChar
                  ++ ('"' :: (':' :: (' ' :: (printJVal v ++ (fieldTail t ++ '}' :: rest)))))) := by
            rw [printFields_cons]; simp [printString]
          rw [hdec, skipWs_notWs (by decide)]
          cases g with
          | zero => omega
          | succ h =>
            rw [parseObjTail_eq, if_neg (by decide)]
            have hF : parseFields h ('"' :: (k.data.flatMap escapeChar
                  ++ ('"' :: (':' :: (' ' :: (printJVal v ++ (fieldTail t ++ '}' :: rest)))))))
                = some ((k, v) :: t, rest) := by
              rw [← hdec]
              exact parseFields_print h ((k, v) :: t) rest (by simp) (by omega)
            rw [hF]
            rfl

/-- Element-list round trip: printed elements followed by `]` parse back. -/
theorem parseElems_print (fuel : Nat) (xs : List JVal) (rest : List Char)
    (hne : xs ≠ []) (hsz : jsizeL xs ≤ fuel) :
    parseElems fuel (printElems xs ++ ']' :: rest) = some (xs, rest) := by
  cases xs with
  | nil => exact absurd rfl hne
  | cons x t =>
    have e1 : jsizeL (x :: t) = 2 + jsize x + jsizeL t := rfl
    cases fuel with
    | zero => omega
    | succ g =>
      have hin : printElems (x :: t) ++ ']' :: rest
          = printJVal x ++ (elemTail t ++ ']' :: rest) := by
        rw [printElems_cons]; simp
      have hrOk : restOk (elemTail t ++ ']' :: rest) = true := by
        cases t with
        | nil => rfl
        | cons y t' => rfl
      have hV := parseVal_print g x (elemTail t ++ ']' :: rest) (by omega) hrOk
      rw [parseElems_eq, hin, hV]
      show parseElemsRest g x (skipWs (elemTail t ++ ']' :: rest)) = _
      cases t with
      | nil =>
        rw [show elemTail [] ++ ']' :: rest = ']' :: rest from rfl,
          skipWs_notWs (by decide)]
        cases g with
        | zero => omega
        | succ h =>
          rw [parseElemsRest_eq, if_neg (by decide), if_pos rfl]
      | cons y t' =>
        have e2 : jsizeL (y :: t') = 2 + jsize y + jsizeL t' := rfl
        rw [show elemTail (y :: t') ++ ']' :: rest
            = ',' :: (' ' :: (printElems (y :: t') ++ ']' :: rest)) from by
          simp [elemTail], skipWs_notWs (by decide)]
        cases g with
        | zero => omega
        | succ h =>
          rw [parseElemsRest_eq, if_pos rfl, parseElems_cons_ws (by decide),
            parseElems_print h (y :: t') rest (by simp) (by omega)]
          rfl

/-- Field-list round trip: printed fields followed by `}` parse back. -/
theorem parseFields_print (fuel : Nat) (fs : List (String × JVal)) (rest : List Char)
    (hne : fs ≠ []) (hsz : jsizeF fs ≤ fuel) :
    parseFields fuel (printFields fs ++ '}' :: rest) = some (fs, rest) := by
  cases fs with
  | nil => exact absurd rfl hne
  | cons kv t =>
    obtain ⟨k, v⟩ := kv
    obtain ⟨kcs⟩ := k
    have e1 : jsizeF ((String.mk kcs, v) :: t) = 4 + jsize v + jsizeF t := rfl
    cases fuel with
    | zero => omega
    | succ g =>
      have hin : printFields ((String.mk kcs, v) :: t) ++ '}' :: rest
          = '"' :: (kcs.flatMap escapeChar
              ++ ('"' :: (':' :: (' ' :: (printJVal v ++ (fieldTail t ++ '}' :: rest)))))) := by
        rw [printFields_cons]; simp [printString]
      rw [parseFields_eq, hin, skipWs_notWs (by decide)]
      cases g with
      | zero => omega
      | succ h =>
        rw [parseFieldsStart_eq, if_pos rfl,
          parseStringBody_escape kcs
            (':' :: (' ' :: (printJVal v ++ (fieldTail t ++ '}' :: rest))))]
        show parseFieldsColon h (String.mk kcs)
            (skipWs (':' :: (' ' :: (printJVal v ++ (fieldTail t ++ '}' :: rest))))) = _
        rw [skipWs_notWs (by decide)]
        cases h with
        | zero => omega
        | succ i =>
          rw [parseFieldsColon_eq, if_pos rfl,
            parseVal_cons_ws (show isWsChar ' ' = true from by decide)]
          have hrOk : restOk (fieldTail t ++ '}' :: rest) = true := by
            cases t with
            | nil => rfl
            | cons f0 t' => rfl
          rw [parseVal_print i v (fieldTail t ++ '}' :: rest) (by omega) hrOk]
          show parseFieldsComma i (String.mk kcs) v
              (skipWs (fieldTail t ++ '}' :: rest)) = _
          cases t with
          | nil =>
            rw [show fieldTail [] ++ '}' :: rest = '}' :: rest from rfl,
              skipWs_notWs (by decide)]
            cases i with
            | zero => omega
            | succ j =>
              rw [parseFieldsComma_eq, if_neg (by decide), if_pos rfl]
          | cons f0 t' =>
            obtain ⟨k0, v0⟩ := f0
            have e2 : jsizeF ((k0, v0) :: t') = 4 + jsize v0 + jsizeF t' := rfl
            rw [show fieldTail ((k0, v0) :: t') ++ '}' :: rest
                = ',' :: (' ' :: (printFields ((k0, v0) :: t') ++ '}' :: rest)) from by
              simp [fieldTail], skipWs_notWs (by decide)]
            cases i with
            | zero => omega
            | succ j =>
              rw [parseFieldsComma_eq, if_pos rfl, parseFields_cons_ws (by decide),
                parseFields_print j ((k0, v0) :: t') rest (by simp) (by omega)]
              rfl
end

mutual
/-- The fuel needed for a value is within the fuel `jsonLoads` supplies. -/
theorem jsize_le_len : ∀ v : JVal, jsize v ≤ 3 * (printJVal v).length
  | .null => by decide
  | .bool b => by cases b <;> decide
  | .num n => by
      have h1 : 1 ≤ (printInt n).length := by
        cases n with
        | ofNat m =>
          show 1 ≤ (printNat m).length
          cases hp : printNat m with
          | nil => exact absurd hp (printNat_ne_nil m)
          | cons c t => simp
        | negSucc m => simp [printInt]
      have e : jsize (JVal.num n) = 2 := rfl
      have e2 : printJVal (JVal.num n) = printInt n := rfl
      rw [e, e2]
      omega
  | .str s => by
      have e : jsize (JVal.str s) = 2 := rfl
      rw [e, show printJVal (JVal.str s)
          = '"' :: (s.data.flatMap escapeChar ++ ['"']) from rfl]
      simp only [List.length_cons, List.length_append]
      omega
  | .arr xs => by
      have h := jsizeL_le_len xs
      have e : jsize (JVal.arr xs) = 3 + jsizeL xs := rfl
      rw [e, show printJVal (JVal.arr xs) = '[' :: (printElems xs ++ [']']) from rfl]
      simp only [List.length_cons, List.length_append]
      omega
  | .obj fs => by
      have h := jsizeF_le_len fs
      have e : jsize (JVal.obj fs) = 3 + jsizeF fs := rfl
      rw [e, show printJVal (JVal.obj fs) = '{' :: (printFields fs ++ ['}']) from rfl]
      simp only [List.length_cons, List.length_append]
      omega

/-- Fuel bound for element lists. -/
theorem jsizeL_le_len : ∀ xs : List JVal, jsizeL xs ≤ 3 * (printElems xs).length + 2
  | [] => by decide
  | [x] => by
      have h := jsize_le_len x
      have e : jsizeL [x] = 2 + jsize x + jsizeL [] := rfl
      have e0 : jsizeL ([] : List JVal) = 0 := rfl
      rw [e, e0, show printElems [x] = printJVal x from rfl]
      omega
  | x :: y :: t => by
      have h1 := jsize_le_len x
      have h2 := jsizeL_le_len (y :: t)
      have e : jsizeL (x :: y :: t) = 2 + jsize x + jsizeL (y :: t) := rfl
      rw [e, show printElems (x :: y :: t)
          = printJVal x ++ ',' :: ' ' :: printElems (y :: t) from rfl]
      rw [List.length_append]
      simp only [List.length_cons]
      omega

/-- Fuel bound for field lists. -/
theorem jsizeF_le_len : ∀ fs : List (String × JVal), jsizeF fs ≤ 3 * (printFields fs).length + 2
  | [] => by decide
  | [(k, v)] => by
      have h := jsize_le_len v
      have e : jsizeF [(k, v)] = 4 + jsize v + jsizeF [] := rfl
      have e0 : jsizeF ([] : List (String × JVal)) = 0 := rfl
      rw [e, e0, show printFields [(k, v)]
          = printString k ++ ':' :: ' ' :: printJVal v from rfl]
      rw [List.length_append]
      simp only [List.length_cons]
      omega
  | (k, v) :: f :: t => by
      have h1 := jsize_le_len v
      have h2 := jsizeF_le_len (f :: t)
      have e : jsizeF ((k, v) :: f :: t) = 4 + jsize v + jsizeF (f :: t) := rfl
      rw [e, show printFields ((k, v) :: f :: t)
          = printString k ++ ':' :: ' ' :: printJVal v ++ ',' :: ' ' :: printFields (f :: t)
          from rfl]
      rw [List.length_append]
      simp only [List.length_cons, List.length_append]
      omega
end

/-- JSON round trip: `json.loads (json.dumps v) = v` for every modelled
JSON-serializable value. -/
theorem jsonLoads_jsonDumps (v : JVal) : jsonLoads (jsonDumps v) = some v := by
  have hsz : jsize v ≤ 3 * (printJVal v).length + 3 := by
    have := jsize_le_len v
    omega
  have h := parseVal_print (3 * (printJVal v).length + 3) v [] hsz rfl
  rw [List.append_nil] at h
  unfold jsonLoads jsonDumps
  rw [show (String.mk (printJVal v)).length = (printJVal v).length from rfl,
    show (String.mk (printJVal v)).data = printJVal v from rfl, h]
  rfl

/- ## HTTP responses and the session middleware (`FileSessionMiddleware`) -/

/-- The responses produced by the modelled routes. -/
inductive Response where
  | redirect (url : String) (status : Nat)
  | jsonBody (body : JVal) (status : Nat)
  | httpError (status : Nat) (detail : String)
  | stream (payload : JVal)

/-- Outcome of the wrapped application inside `call_next`: a normal
response, an `HTTPException` (turned into a response by FastAPI's exception
middleware, which sits inside `call_next`), or an unhandled exception that
propagates out of `call_next`. -/
inductive HandlerOut where
  | normal (resp : Response)
  | raisedHTTP (status : Nat) (detail : String)
  | raisedOther (msg : String)

/-- `call_next` returned a response (normal return, or an `HTTPException`
converted to a response inside the stack). -/
def HandlerOut.hasResponse : HandlerOut → Bool
  | .raisedOther _ => false
  | _ => true

/-- The response produced inside `call_next`, when one exists. -/
def HandlerOut.response? : HandlerOut → Option Response
  | .normal r => some r
  | .raisedHTTP st d => some (.httpError st d)
  | .raisedOther _ => none

/-- The session directory: file contents per session id
(`sessions/{sid}.json`). -/
abbrev Store := String → Option String

/-- A route handler: mutates the session, produces an outcome. -/
abbrev Handler := JVal → JVal × HandlerOut

/-- Middleware events, in the order the middleware performs them. -/
inductive MwEvent where
  | load
  | handle
  | persist
deriving DecidableEq

/-- Write one session file. -/
def updateStore (store : Store) (sid : String) (content : String) : Store :=
  fun id => if id == sid then some content else store id

/-- Lines 42–56: resolve the cookie, read the session file, degrade to `{}`
on a missing cookie, a missing file, or corrupt JSON. -/
def loadSession (store : Store) (cookie : Option String) : JVal :=
  match cookie with
  | some sid =>
    match store sid with
    | some content => (jsonLoads content).getD (JVal.obj [])
    | none => JVal.obj []
  | none => JVal.obj []

/-- Result of a dispatch that produced a response. -/
structure DispatchOk where
  response : Response
  newCookie : Option String
  store : Store

/-- `FileSessionMiddleware.dispatch` (lines 41–77): load the session,
run `call_next`, mint a cookie when none existed, serialize the (possibly
mutated) session back to its file. There is no `try`/`finally`: when
`call_next` raises (no response exists), the write is skipped and the
exception propagates. The event list records the order of the side
effects. -/
def dispatch (store : Store) (cookie : Option String) (freshId : String)
    (handler : Handler) : Except String DispatchOk × List MwEvent :=
  let s := loadSession store cookie
  let (s', out) := handler s
  match out with
  | .raisedOther msg => (.error msg, [MwEvent.load, MwEvent.handle])
  | .normal r =>
      (.ok ⟨r, if cookie.isNone then some freshId else none,
        updateStore store (cookie.getD freshId) (jsonDumps s')⟩,
       [MwEvent.load, MwEvent.handle, MwEvent.persist])
  | .raisedHTTP st d =>
      (.ok ⟨Response.httpError st d, if cookie.isNone then some freshId else none,
        updateStore store (cookie.getD freshId) (jsonDumps s')⟩,
       [MwEvent.load, MwEvent.handle, MwEvent.persist])

/- ## Authentication endpoints (`authorized`, `logout`) -/

/-- Python comparison of an optional query parameter (`str` or `None`)
with a session value (`None` is `JVal.null`). -/
def pyEqQS : Option String → JVal → Bool
  | none, .null => true
  | some q, .str s => q == s
  | _, _ => false

/-- Python truthiness of an optional string (`None` and `""` are falsy). -/
def pyTruthyOptStr : Option String → Bool
  | none => false
  | some s => !(s == "")

/-- The query parameters the callback reads. `hasError` is
`"error" in request.query_params`. -/
structure AuthQuery where
  state? : Option String
  hasError : Bool
  errorDescription? : Option String
  code? : Option String

/-- Result of `acquire_token_by_authorization_code`, together with the
serialized MSAL cache when `cache.has_state_changed` (what `_save_cache`
would store). `hasError` is `"error" in result`. -/
structure TokenResult where
  hasError : Bool
  errorDescription? : Option String
  accessToken? : Option String
  refreshToken? : Option String
  idTokenClaims : PyDict
  newCache? : Option String

/-- Store an optional string as a session value (`None` → null). -/
def optStr : Option String → JVal
  | some s => .str s
  | none => .null

/-- Lines 170–198 of `authorized`: the provider-error check, the
authorization-code check, and the code-for-token exchange. The third
component records whether the token exchange was performed. -/
def authorizedAfterState (exchange : String → TokenResult) (query : AuthQuery)
    (s : PyDict) : Response × PyDict × Bool :=
  if query.hasError then
    (.jsonBody (.obj [("error", .str (query.errorDescription?.getD "Unknown error"))]) 400,
     s, false)
  else if !(pyTruthyOptStr query.code?) then
    (.jsonBody (.obj [("error", .str "Authorization code not found")]) 400, s, false)
  else
    let r := exchange (query.code?.getD "")
    if r.hasError then
      (.jsonBody (.obj [("error", .str (r.errorDescription?.getD "Could not acquire token"))]) 400,
       s, true)
    else
      let claims := r.idTokenClaims
      let minimalUser := JVal.obj
        [("oid", sget claims "oid"),
         ("preferred_username", pyOr (sget claims "preferred_username") (sget claims "upn"))]
      let s := sset s "user" minimalUser
      let s := sset s "graph_access_token" (optStr r.accessToken?)
      let s := sset s "refresh_token" (optStr r.refreshToken?)
      let s := match r.newCache? with
        | some c => sset s "msal_cache" (.str c)
        | none => s
      let s := spop s "state"
      (.redirect "/" 303, s, true)

/-- The OAuth callback endpoint `authorized` (lines 162–198). -/
def authorized (enableAuth : Bool) (exchange : String → TokenResult)
    (query : AuthQuery) (s : PyDict) : Response × PyDict × Bool :=
  if !enableAuth then (.redirect "/" 303, s, false)
  else if jsonTruthy (sget s "user") then (.redirect "/" 303, s, false)
  else if !(pyEqQS query.state? (sget s "state")) then
    (.jsonBody (.obj [("error", .str "State mismatch")]) 400, s, false)
  else authorizedAfterState exchange query s

/-- The `logout` endpoint (lines 200–204): clear the whole session, redirect
to the provider logout URL. -/
def logout (authority redirectUri : String) (_s : PyDict) : Response × PyDict :=
  (.redirect (authority ++ "/oauth2/v2.0/logout?post_logout_redirect_uri=" ++ redirectUri) 303,
   [])

/- ## Authorization check (`check_authorization`) and `/speak` -/

/-- The fixed basic scope set (line 89). -/
def BASIC_SCOPE : List String := ["User.Read"]

/-- `[s.strip() for s in raw.split(",") if s.strip()]` (line 239). -/
def parseOtherScopes (raw : String) : List String :=
  ((raw.splitOn ",").map String.trim).filter (fun s => !(s == ""))

/-- The per-request authorization decision (never persisted). -/
structure Decision where
  authorized : Bool
  client_principal_id : JVal
  client_principal_name : JVal
  client_group_names : List String
  access_token : JVal

/-- `_save_cache`: overwrite the session's cache blob only when MSAL
reports a mutation (`newCache? = some _`). -/
def saveCache (s : PyDict) : Option String → PyDict
  | some c => sset s "msal_cache" (.str c)
  | none => s

/-- `check_authorization` (lines 209–264). `acquire` models
`get_valid_access_token`: it receives the scope list and the session's
`msal_cache` value, and either returns a token together with the new
serialized cache when the cache changed, or raises. `fetchGroups` models
the Graph `memberOf` call on the bearer token; any failure yields an empty
group list. -/
def check_authorization (enableAuth : Bool) (otherScopes : String)
    (acquire : List String → JVal → Except String (String × Option String))
    (fetchGroups : JVal → Except String (List String))
    (s : PyDict) : Decision × PyDict :=
  if !enableAuth then
    ({ authorized := true, client_principal_id := .str "no-auth",
       client_principal_name := .str "anonymous", client_group_names := [],
       access_token := .null }, s)
  else
    let user := sget s "user"
    if !(jsonTruthy user) then
      ({ authorized := false, client_principal_id := .null,
         client_principal_name := .null, client_group_names := [],
         access_token := .null }, s)
    else
      let cpid := jget user "oid"
      let cpname := pyOr (jget user "preferred_username") (jget user "upn")
      let (graphTok, s) :=
        match acquire BASIC_SCOPE (sget s "msal_cache") with
        | .ok (t, c?) =>
            let s := saveCache s c?
            (JVal.str t, sset s "graph_access_token" (.str t))
        | .error _ => (sget s "graph_access_token", s)
      let (otherTok, s) :=
        if !(otherScopes == "") then
          match acquire (parseOtherScopes otherScopes) (sget s "msal_cache") with
          | .ok (t, c?) =>
              let s := saveCache s c?
              (JVal.str t, sset s "other_access_token" (.str t))
          | .error _ => (sget s "other_access_token", s)
        else (JVal.null, s)
      let accessTok := if jsonTruthy otherTok then otherTok else graphTok
      let groups :=
        if jsonTruthy graphTok then
          match fetchGroups graphTok with
          | .ok gs => gs
          | .error _ => []
        else []
      ({ authorized := true, client_principal_id := cpid,
         client_principal_name := cpname, client_group_names := groups,
         access_token := accessTok }, s)

/-- Result of the `/speak` endpoint: the response, the session afterwards,
whether `check_authorization` ran, and the payload sent to the orchestrator
(`none` when no outbound call is made). -/
structure SpeakOut where
  response : Response
  session : PyDict
  authChecked : Bool
  orchPayload? : Option JVal

/-- The `/speak` endpoint (lines 281–341) up to handing the payload to the
streaming request. The body is the parsed JSON request body. -/
def speak (enableAuth : Bool) (otherScopes : String)
    (acquire : List String → JVal → Except String (String × Option String))
    (fetchGroups : JVal → Except String (List String))
    (s : PyDict) (body : PyDict) : SpeakOut :=
  let question := sget body "spokenText"
  let conversation_id := sgetD body "conversation_id" (.str "")
  if !(jsonTruthy question) then
    { response := .httpError 400 "Missing spokenText in request.",
      session := s, authChecked := false, orchPayload? := none }
  else
    let (auth, s) := check_authorization enableAuth otherScopes acquire fetchGroups s
    if !auth.authorized then
      { response := .jsonBody (.obj
          [("answer", .str "You are not authorized to access this service. Please contact your administrator."),
           ("thoughts", .str "User not authorized."),
           ("conversation_id", conversation_id)]) 401,
        session := s, authChecked := true, orchPayload? := none }
    else
      let payload := JVal.obj
        ([("conversation_id", conversation_id),
          ("question", question),
          ("text_only", .bool true),
          ("client_principal_id", auth.client_principal_id),
          ("client_principal_name", auth.client_principal_name),
          ("client_group_names", .arr (auth.client_group_names.map JVal.str))]
         ++ (if jsonTruthy auth.access_token then [("access_token", auth.access_token)] else []))
      { response := .stream payload, session := s, authChecked := true,
        orchPayload? := some payload }

/- ## The streaming proxy (`stream_generator`, lines 313–339) -/

/-- The SSE comment heartbeat frame. -/
def heartbeat : String := ":\n\n"

/-- The line loop of `stream_generator` (lines 326–339): the upstream is
the list of `(arrival time, line)` pairs yielded by `aiter_lines`, `last`
is `last_yield`. On each arrival: emit a heartbeat if more than 15 seconds
passed since the last yield, then forward the line when it is non-empty. -/
def procLines (last : Int) : List (Int × String) → List String
  | [] => []
  | (now, line) :: rest =>
      (if now - last > 15 then [heartbeat] else []) ++
      (if line = "" then procLines (if now - last > 15 then now else last) rest
       else line :: procLines now rest)

/-- `stream_generator` (lines 313–339): a non-200 upstream status yields a
single error line; otherwise the line loop runs with `last_yield`
initialized to the loop entry time `start`. -/
def stream_generator (status : Nat) (start : Int)
    (events : List (Int × String)) : List String :=
  if status != 200 then ["Error: " ++ toString status]
  else procLines start events

/-- The value of `last_yield` after processing a prefix of events. -/
def lastAfter (last : Int) : List (Int × String) → Int
  | [] => last
  | (now, line) :: rest =>
      if line = "" then lastAfter (if now - last > 15 then now else last) rest
      else lastAfter now rest

/-- The loop processes an appended suffix from the prefix's final
`last_yield`. -/
theorem procLines_append (last : Int) (xs ys : List (Int × String)) :
    procLines last (xs ++ ys) = procLines last xs ++ procLines (lastAfter last xs) ys := by
  induction xs generalizing last with
  | nil => rfl
  | cons e rest ih =>
    obtain ⟨now, line⟩ := e
    by_cases hl : line = ""
    · by_cases hh : now - last > 15 <;>
        simp [procLines, lastAfter, hl, hh, ih]
    · by_cases hh : now - last > 15 <;>
        simp [procLines, lastAfter, hl, hh, ih]

/-- `last_yield` only ever holds the start time or an arrival time. -/
theorem lastAfter_mem (last : Int) (xs : List (Int × String)) :
    lastAfter last xs = last ∨ lastAfter last xs ∈ xs.map Prod.fst := by
  induction xs generalizing last with
  | nil => exact Or.inl rfl
  | cons e rest ih =>
    obtain ⟨now, line⟩ := e
    have hstep : lastAfter last ((now, line) :: rest)
        = lastAfter (if line = "" then (if now - last > 15 then now else last) else now)
            rest := by
      by_cases hl : line = "" <;> simp [lastAfter, hl]
    rw [hstep]
    rcases ih (if line = "" then (if now - last > 15 then now else last) else now) with h | h
    · rw [h]
      by_cases hl : line = ""
      · by_cases hh : now - last > 15
        · right; simp [hl, hh]
        · left; simp [hl, hh]
      · right; simp [hl]
    · right
      simp only [List.map_cons]
      exact List.mem_cons_of_mem _ h

/- ## Claim theorems -/

/-- C1: For every request handled by the session middleware, the session
mapping is loaded from the session file strictly before the wrapped handler
runs (the handler receives exactly the loaded mapping), and the possibly
mutated mapping is serialized and written back to the session file strictly
after the handler completes — including when the handler raised an
exception that the framework turned into a response: whenever a response
exists, the write is performed (event order load, handle, persist). -/
theorem middleware_load_run_persist
    (store : Store) (cookie : Option String) (freshId : String) (handler : Handler)
    (hresp : ((handler (loadSession store cookie)).2).hasResponse = true) :
    (dispatch store cookie freshId handler).2
      = [MwEvent.load, MwEvent.handle, MwEvent.persist] ∧
    ∃ r nc st', (dispatch store cookie freshId handler).1 = .ok ⟨r, nc, st'⟩ ∧
      st' (cookie.getD freshId)
        = some (jsonDumps (handler (loadSession store cookie)).1) ∧
      some r = ((handler (loadSession store cookie)).2).response? := by
  rcases hp : handler (loadSession store cookie) with ⟨s', out⟩
  cases out with
  | raisedOther msg =>
    rw [hp] at hresp
    exact absurd hresp (by simp [HandlerOut.hasResponse])
  | normal r =>
    refine ⟨by simp [dispatch, hp], r, if cookie.isNone then some freshId else none,
      updateStore store (cookie.getD freshId) (jsonDumps s'), ?_, ?_, ?_⟩
    · simp [dispatch, hp]
    · simp [updateStore]
    · rfl
  | raisedHTTP st d =>
    refine ⟨by simp [dispatch, hp], .httpError st d,
      if cookie.isNone then some freshId else none,
      updateStore store (cookie.getD freshId) (jsonDumps s'), ?_, ?_, ?_⟩
    · simp [dispatch, hp]
    · simp [updateStore]
    · rfl

/-- Witness for C1 at a concrete store, cookie and handler that raises an
`HTTPException` after mutating the session. -/
theorem middleware_load_run_persist_witness :
    ((((fun _ => (JVal.obj [("user", JVal.str "u1")], HandlerOut.raisedHTTP 400 "boom"))
          : Handler) (loadSession (fun _ => none) none)).2).hasResponse = true ∧
    ((dispatch (fun _ => none) none "sid0"
        (fun _ => (JVal.obj [("user", JVal.str "u1")], HandlerOut.raisedHTTP 400 "boom"))).2
      = [MwEvent.load, MwEvent.handle, MwEvent.persist] ∧
    ∃ r nc st',
      (dispatch (fun _ => none) none "sid0"
        (fun _ => (JVal.obj [("user", JVal.str "u1")], HandlerOut.raisedHTTP 400 "boom"))).1
        = .ok ⟨r, nc, st'⟩ ∧
      st' ((none : Option String).getD "sid0")
        = some (jsonDumps ((fun (_ : JVal) =>
            (JVal.obj [("user", JVal.str "u1")], HandlerOut.raisedHTTP 400 "boom"))
              (loadSession (fun _ => none) none)).1) ∧
      some r = ((((fun _ => (JVal.obj [("user", JVal.str "u1")],
          HandlerOut.raisedHTTP 400 "boom")) : Handler)
            (loadSession (fun _ => none) none)).2).response?) :=
  ⟨rfl, middleware_load_run_persist (fun _ => none) none "sid0" _ rfl⟩

/-- C6: a session mapping persisted by the middleware at the end of a
request is reproduced exactly when the session record is loaded on a
subsequent request bearing the same session cookie: the next request's
handler receives precisely the mapping the previous handler left
(write then read round-trips through the JSON file). -/
theorem session_persist_reload_roundtrip
    (store : Store) (cookie : Option String) (freshId : String) (handler : Handler)
    (r : Response) (nc : Option String) (st' : Store)
    (h : (dispatch store cookie freshId handler).1 = .ok ⟨r, nc, st'⟩) :
    loadSession st' (some (cookie.getD freshId))
      = (handler (loadSession store cookie)).1 := by
  rcases hp : handler (loadSession store cookie) with ⟨s', out⟩
  cases out with
  | raisedOther msg =>
    rw [show (dispatch store cookie freshId handler).1 = .error msg from by
      simp [dispatch, hp]] at h
    exact absurd h (by simp)
  | normal r0 =>
    have hst : st' = updateStore store (cookie.getD freshId) (jsonDumps s') := by
      have := h
      rw [show (dispatch store cookie freshId handler).1
          = .ok ⟨r0, if cookie.isNone then some freshId else none,
              updateStore store (cookie.getD freshId) (jsonDumps s')⟩ from by
        simp [dispatch, hp]] at this
      simp only [Except.ok.injEq, DispatchOk.mk.injEq] at this
      exact this.2.2.symm
    rw [hst]
    show loadSession (updateStore store (cookie.getD freshId) (jsonDumps s'))
        (some (cookie.getD freshId)) = s'
    unfold loadSession updateStore
    simp [jsonLoads_jsonDumps]
  | raisedHTTP st d =>
    have hst : st' = updateStore store (cookie.getD freshId) (jsonDumps s') := by
      have := h
      rw [show (dispatch store cookie freshId handler).1
          = .ok ⟨.httpError st d, if cookie.isNone then some freshId else none,
              updateStore store (cookie.getD freshId) (jsonDumps s')⟩ from by
        simp [dispatch, hp]] at this
      simp only [Except.ok.injEq, DispatchOk.mk.injEq] at this
      exact this.2.2.symm
    rw [hst]
    show loadSession (updateStore store (cookie.getD freshId) (jsonDumps s'))
        (some (cookie.getD freshId)) = s'
    unfold loadSession updateStore
    simp [jsonLoads_jsonDumps]

/-- Witness for C6 at a concrete request whose handler stores a
string-and-null-valued mapping. -/
theorem session_persist_reload_roundtrip_witness :
    (dispatch (fun _ => none) none "sid0"
        (fun _ => (JVal.obj [("state", JVal.str "abc"), ("x", JVal.null)],
          HandlerOut.normal (Response.redirect "/" 303)))).1
      = .ok ⟨Response.redirect "/" 303, some "sid0",
          updateStore (fun _ => none) "sid0"
            (jsonDumps (JVal.obj [("state", JVal.str "abc"), ("x", JVal.null)]))⟩ ∧
    loadSession
        (updateStore (fun _ => none) "sid0"
          (jsonDumps (JVal.obj [("state", JVal.str "abc"), ("x", JVal.null)])))
        (some ((none : Option String).getD "sid0"))
      = ((fun (_ : JVal) => (JVal.obj [("state", JVal.str "abc"), ("x", JVal.null)],
          HandlerOut.normal (Response.redirect "/" 303)))
            (loadSession (fun _ => none) none)).1 :=
  ⟨rfl, session_persist_reload_roundtrip (fun _ => none) none "sid0"
    (fun _ => (JVal.obj [("state", JVal.str "abc"), ("x", JVal.null)],
      HandlerOut.normal (Response.redirect "/" 303)))
    (Response.redirect "/" 303) (some "sid0")
    (updateStore (fun _ => none) "sid0"
      (jsonDumps (JVal.obj [("state", JVal.str "abc"), ("x", JVal.null)])))
    rfl⟩

/-- C2: whenever more than 15 seconds elapse with no upstream line (every
earlier arrival, and the stream start, lies more than 15 seconds before the
arrival at time `t`), the stream emitted to the client contains a heartbeat
frame `":\n\n"` emitted before the line that ends the gap (and hence before
the next real line); universally quantifying the position covers every such
silent gap until the upstream ends. -/
theorem heartbeat_emitted_in_silent_gap (start t : Int) (l : String)
    (pre post : List (Int × String))
    (hgap : ∀ u ∈ start :: pre.map Prod.fst, t - u > 15) :
    stream_generator 200 start (pre ++ (t, l) :: post)
      = stream_generator 200 start pre
        ++ heartbeat :: (if l = "" then procLines t post
                         else l :: procLines t post) := by
  have hL : t - lastAfter start pre > 15 := by
    rcases lastAfter_mem start pre with h | h
    · rw [h]
      exact hgap start (List.mem_cons_self _ _)
    · exact hgap _ (List.mem_cons_of_mem _ h)
  show procLines start (pre ++ (t, l) :: post) = procLines start pre ++ _
  rw [procLines_append]
  by_cases hl : l = "" <;>
    simp [procLines, hL, hl]

/-- Witness for C2: a 16-second silent gap after one line at time 10 from
start 0; the heartbeat appears between the two real lines. -/
theorem heartbeat_emitted_in_silent_gap_witness :
    (∀ u ∈ (0 : Int) :: ([((10 : Int), "a")].map Prod.fst), (26 : Int) - u > 15) ∧
    stream_generator 200 0 ([((10 : Int), "a")] ++ ((26 : Int), "b") :: [])
      = stream_generator 200 0 [((10 : Int), "a")]
        ++ heartbeat :: (if "b" = "" then procLines 26 []
                         else "b" :: procLines 26 []) :=
  ⟨by decide, heartbeat_emitted_in_silent_gap 0 26 "b" [(10, "a")] [] (by decide)⟩

/-- C4 counterexample: with upstream status 200 and arrival sequence
`"data: x"`, `""`, `"data: y"`, the empty line received from the upstream
is omitted from the client stream, so not every received line is
forwarded. -/
theorem empty_line_dropped_counterexample :
    ([((0 : Int), "data: x"), (0, ""), (0, "data: y")].map Prod.snd).count "" = 1 ∧
    stream_generator 200 0 [((0 : Int), "data: x"), (0, ""), (0, "data: y")]
      = ["data: x", "data: y"] ∧
    (["data: x", "data: y"].count "" = 0) := by
  refine ⟨by decide, ?_, by decide⟩
  rfl

/-- C4 (amended): for every upstream response with status 200, the proxy
forwards every *non-empty* line received from the upstream, in order, and
emits nothing else besides heartbeat frames; empty lines are dropped. -/
theorem nonempty_lines_forwarded_in_order (start : Int)
    (events : List (Int × String))
    (hhb : ∀ e ∈ events, e.2 ≠ heartbeat) :
    (stream_generator 200 start events).filter (fun f => !(f == heartbeat))
      = (events.map Prod.snd).filter (fun l => !(l == "")) := by
  show (procLines start events).filter _ = _
  induction events generalizing start with
  | nil => rfl
  | cons e rest ih =>
    obtain ⟨now, line⟩ := e
    have hline : line ≠ heartbeat := hhb (now, line) (List.mem_cons_self _ _)
    have ih' : ∀ last : Int, (procLines last rest).filter (fun f => !(f == heartbeat))
        = (rest.map Prod.snd).filter (fun l => !(l == "")) :=
      fun last => ih last (fun e he => hhb e (List.mem_cons_of_mem _ he))
    by_cases hl : line = ""
    · by_cases hh : now - start > 15 <;>
        simp [procLines, hl, hh, ih']
    · by_cases hh : now - start > 15 <;>
        simp [procLines, hl, hh, ih', hline]

/-- Witness for C4 (amended) on a concrete stream with a silent gap and an
empty line. -/
theorem nonempty_lines_forwarded_in_order_witness :
    (∀ e ∈ [((10 : Int), "a"), (26, ""), (27, "b")], e.2 ≠ heartbeat) ∧
    (stream_generator 200 0 [((10 : Int), "a"), (26, ""), (27, "b")]).filter
        (fun f => !(f == heartbeat))
      = ([((10 : Int), "a"), (26, ""), (27, "b")].map Prod.snd).filter
          (fun l => !(l == "")) :=
  ⟨by decide, nonempty_lines_forwarded_in_order 0 [(10, "a"), (26, ""), (27, "b")]
    (by decide)⟩

/-- C3: a callback with authentication enabled, no `user` in the session,
and a `state` query parameter that does not equal the session's stored
nonce returns status 400 with an error body, performs no token exchange,
leaves the session unchanged, and creates no `user` entry. -/
theorem callback_state_mismatch_rejected
    (exchange : String → TokenResult) (query : AuthQuery) (s : PyDict)
    (huser : sget s "user" = JVal.null)
    (hmismatch : pyEqQS query.state? (sget s "state") = false) :
    authorized true exchange query s
      = (.jsonBody (.obj [("error", .str "State mismatch")]) 400, s, false) ∧
    sget (authorized true exchange query s).2.1 "user" = JVal.null := by
  have h : authorized true exchange query s
      = (.jsonBody (.obj [("error", .str "State mismatch")]) 400, s, false) := by
    simp [authorized, huser, hmismatch, jsonTruthy]
  exact ⟨h, by rw [h]; exact huser⟩

/-- Witness for C3: empty session, a `state` parameter present while the
session stores none. -/
theorem callback_state_mismatch_rejected_witness :
    sget [] "user" = JVal.null ∧
    pyEqQS (some "x") (sget [] "state") = false ∧
    (authorized true (fun _ => ⟨false, none, none, none, [], none⟩)
        ⟨some "x", false, none, none⟩ []
      = (.jsonBody (.obj [("error", .str "State mismatch")]) 400, [], false) ∧
    sget (authorized true (fun _ => ⟨false, none, none, none, [], none⟩)
        ⟨some "x", false, none, none⟩ []).2.1 "user" = JVal.null) :=
  ⟨rfl, rfl, callback_state_mismatch_rejected _ _ _ rfl rfl⟩

/-- C10: a callback with authentication enabled, no `user` in the session,
no `state` query parameter and no stored `state` nonce passes the
state-equality check (absent equals absent) and proceeds to the
provider-error and authorization-code checks rather than returning the 400
state-mismatch response. -/
theorem callback_absent_state_matches
    (exchange : String → TokenResult) (query : AuthQuery) (s : PyDict)
    (huser : sget s "user" = JVal.null)
    (hq : query.state? = none) (hss : sget s "state" = JVal.null) :
    pyEqQS query.state? (sget s "state") = true ∧
    authorized true exchange query s = authorizedAfterState exchange query s := by
  have he : pyEqQS query.state? (sget s "state") = true := by
    rw [hq, hss]
    rfl
  refine ⟨he, ?_⟩
  simp [authorized, huser, jsonTruthy, he]

/-- Witness for C10: empty session and a query carrying only a provider
error; processing reaches the provider-error check. -/
theorem callback_absent_state_matches_witness :
    sget [] "user" = JVal.null ∧
    (⟨none, true, some "denied", none⟩ : AuthQuery).state? = none ∧
    sget [] "state" = JVal.null ∧
    (pyEqQS (⟨none, true, some "denied", none⟩ : AuthQuery).state? (sget [] "state") = true ∧
    authorized true (fun _ => ⟨false, none, none, none, [], none⟩)
        ⟨none, true, some "denied", none⟩ []
      = authorizedAfterState (fun _ => ⟨false, none, none, none, [], none⟩)
          ⟨none, true, some "denied", none⟩ []) :=
  ⟨rfl, rfl, rfl, callback_absent_state_matches _ _ _ rfl rfl rfl⟩

/-- C7: logout removes every key from the session, and a subsequent
authorization check on the resulting empty session with authentication
enabled yields `authorized = false`, no principal id or name, an empty
group list and no token. -/
theorem logout_clears_session_then_unauthorized
    (authority redirectUri : String) (s : PyDict) (otherScopes : String)
    (acquire : List String → JVal → Except String (String × Option String))
    (fetchGroups : JVal → Except String (List String)) :
    (logout authority redirectUri s).2 = [] ∧
    (∀ k, sget (logout authority redirectUri s).2 k = JVal.null) ∧
    check_authorization true otherScopes acquire fetchGroups
        (logout authority redirectUri s).2
      = ({ authorized := false, client_principal_id := JVal.null,
           client_principal_name := JVal.null, client_group_names := [],
           access_token := JVal.null }, []) :=
  ⟨rfl, fun _ => rfl, rfl⟩

/-- C8: a `/speak` request whose body has a missing or empty `spokenText`
returns status 400, does not invoke the authorization check, and makes no
outbound call to the orchestrator. -/
theorem speak_missing_question_rejected
    (enableAuth : Bool) (otherScopes : String)
    (acquire : List String → JVal → Except String (String × Option String))
    (fetchGroups : JVal → Except String (List String))
    (s body : PyDict)
    (hq : sget body "spokenText" = JVal.null ∨ sget body "spokenText" = JVal.str "") :
    speak enableAuth otherScopes acquire fetchGroups s body
      = { response := .httpError 400 "Missing spokenText in request.",
          session := s, authChecked := false, orchPayload? := none } := by
  rcases hq with h | h <;> simp [speak, h, jsonTruthy]

/-- Witness for C8 with an empty body. -/
theorem speak_missing_question_rejected_witness :
    (sget [] "spokenText" = JVal.null ∨ sget [] "spokenText" = JVal.str "") ∧
    speak true "" (fun _ _ => .error "e") (fun _ => .error "e") [] []
      = { response := .httpError 400 "Missing spokenText in request.",
          session := [], authChecked := false, orchPayload? := none } :=
  ⟨Or.inl rfl, speak_missing_question_rejected true "" _ _ [] [] (Or.inl rfl)⟩

/-- C9: a `/speak` request with a non-empty question, authentication
enabled and no user in the session returns HTTP 401 whose JSON body is a
chat-shaped payload with an `answer` field and the conversation id, and no
call is made to the orchestrator. -/
theorem speak_unauthorized_chat_shaped_401
    (otherScopes : String)
    (acquire : List String → JVal → Except String (String × Option String))
    (fetchGroups : JVal → Except String (List String))
    (s body : PyDict) (q : String)
    (hq : sget body "spokenText" = JVal.str q) (hne : q ≠ "")
    (huser : jsonTruthy (sget s "user") = false) :
    (speak true otherScopes acquire fetchGroups s body).response
      = .jsonBody (.obj
          [("answer", .str "You are not authorized to access this service. Please contact your administrator."),
           ("thoughts", .str "User not authorized."),
           ("conversation_id", sgetD body "conversation_id" (.str ""))]) 401 ∧
    (speak true otherScopes acquire fetchGroups s body).orchPayload? = none ∧
    (speak true otherScopes acquire fetchGroups s body).authChecked = true := by
  have hqt : jsonTruthy (JVal.str q) = true := by simp [jsonTruthy, hne]
  refine ⟨?_, ?_, ?_⟩ <;>
    simp [speak, hq, hqt, check_authorization, huser]

/-- Witness for C9: non-empty question, empty session. -/
theorem speak_unauthorized_chat_shaped_401_witness :
    sget [("spokenText", JVal.str "hi"), ("conversation_id", JVal.str "c1")] "spokenText"
      = JVal.str "hi" ∧
    "hi" ≠ "" ∧
    jsonTruthy (sget [] "user") = false ∧
    ((speak true "" (fun _ _ => .error "e") (fun _ => .error "e") []
        [("spokenText", JVal.str "hi"), ("conversation_id", JVal.str "c1")]).response
      = .jsonBody (.obj
          [("answer", .str "You are not authorized to access this service. Please contact your administrator."),
           ("thoughts", .str "User not authorized."),
           ("conversation_id", sgetD
              [("spokenText", JVal.str "hi"), ("conversation_id", JVal.str "c1")]
              "conversation_id" (.str ""))]) 401 ∧
    (speak true "" (fun _ _ => .error "e") (fun _ => .error "e") []
        [("spokenText", JVal.str "hi"), ("conversation_id", JVal.str "c1")]).orchPayload?
      = none ∧
    (speak true "" (fun _ _ => .error "e") (fun _ => .error "e") []
        [("spokenText", JVal.str "hi"), ("conversation_id", JVal.str "c1")]).authChecked
      = true) :=
  ⟨rfl, by decide, rfl,
    speak_unauthorized_chat_shaped_401 "" _ _ [] _ "hi" rfl (by decide) rfl⟩

/-- Updating one key in place leaves lookups of other keys unchanged. -/
theorem sget_map_update (s : PyDict) (k : String) (v : JVal) (k' : String) (h : k ≠ k') :
    sget (s.map (fun p => if p.1 == k then (k, v) else p)) k' = sget s k' := by
  induction s with
  | nil => rfl
  | cons p t ih =>
    obtain ⟨k0, v0⟩ := p
    unfold sget
    simp only [List.map_cons]
    by_cases hk : (k0 == k) = true
    · have hk0 : k0 = k := by simpa using hk
      have h1 : (k == k') = false := beq_eq_false_iff_ne.mpr h
      have h2 : (k0 == k') = false := beq_eq_false_iff_ne.mpr (hk0 ▸ h)
      rw [if_pos hk]
      simp only [List.find?_cons, h1, h2]
      exact ih
    · rw [if_neg hk]
      by_cases hk' : (k0 == k') = true
      · simp only [List.find?_cons, hk']
      · simp only [List.find?_cons, hk']
        exact ih

/-- Appending a binding for another key leaves lookups unchanged. -/
theorem sget_append_single_ne (s : PyDict) (k : String) (v : JVal) (k' : String)
    (h : k ≠ k') :
    sget (s ++ [(k, v)]) k' = sget s k' := by
  induction s with
  | nil =>
    unfold sget
    simp [List.find?_cons, beq_eq_false_iff_ne.mpr h]
  | cons p t ih =>
    obtain ⟨k0, v0⟩ := p
    unfold sget
    simp only [List.cons_append, List.find?_cons]
    by_cases hk' : (k0 == k') = true
    · simp only [hk']
    · simp only [hk']
      exact ih

/-- Setting one session key does not change the value stored at another. -/
theorem sget_sset_ne (s : PyDict) (k : String) (v : JVal) (k' : String) (h : k ≠ k') :
    sget (sset s k v) k' = sget s k' := by
  unfold sset
  by_cases ha : s.any (fun p => p.1 == k)
  · rw [if_pos ha]
    exact sget_map_update s k v k' h
  · rw [if_neg ha]
    exact sget_append_single_ne s k v k' h

/-- `_save_cache` touches only `msal_cache`. -/
theorem sget_saveCache_ne (s : PyDict) (c? : Option String) (k' : String)
    (h : k' ≠ "msal_cache") :
    sget (saveCache s c?) k' = sget s k' := by
  cases c? with
  | none => rfl
  | some c => exact sget_sset_ne s "msal_cache" (.str c) k' (fun e => h e.symm)

/-- C5: with authentication enabled and a `user` entry in the session, the
authorization check never fails the request on a token-refresh failure: it
always returns an authorized decision; when silent acquisition of the
basic-scope token raises, the decision's basic token falls back to the
`graph_access_token` last stored in the session (possibly absent); when a
secondary scope set is configured it is refreshed independently with the
same fallback to the session's `other_access_token`; and the returned
`access_token` is the secondary token whenever one is available (truthy),
otherwise the basic one. -/
theorem check_authorization_refresh_fallback
    (otherScopes : String)
    (acquire : List String → JVal → Except String (String × Option String))
    (fetchGroups : JVal → Except String (List String))
    (s u : PyDict)
    (huser : sget s "user" = JVal.obj u)
    (htruthy : jsonTruthy (JVal.obj u) = true) :
    (check_authorization true otherScopes acquire fetchGroups s).1.authorized = true ∧
    (check_authorization true otherScopes acquire fetchGroups s).1.access_token
      = (let g : JVal := match acquire BASIC_SCOPE (sget s "msal_cache") with
           | .ok (t, _) => JVal.str t
           | .error _ => sget s "graph_access_token"
         let s1 : PyDict := match acquire BASIC_SCOPE (sget s "msal_cache") with
           | .ok (t, c?) => sset (saveCache s c?) "graph_access_token" (JVal.str t)
           | .error _ => s
         let o : JVal :=
           if !(otherScopes == "") then
             match acquire (parseOtherScopes otherScopes) (sget s1 "msal_cache") with
             | .ok (t, _) => JVal.str t
             | .error _ => sget s "other_access_token"
           else JVal.null
         if jsonTruthy o then o else g) := by
  constructor
  · rcases hb : acquire BASIC_SCOPE (sget s "msal_cache") with e | ⟨t, cc⟩ <;>
      simp [check_authorization, huser, htruthy, hb]
  · rcases hb : acquire BASIC_SCOPE (sget s "msal_cache") with e | ⟨t, cc⟩
    · simp only [check_authorization, huser, htruthy, hb]
      by_cases hos : (otherScopes == "") = true
      · simp [hos]
      · rcases ho : acquire (parseOtherScopes otherScopes) (sget s "msal_cache")
            with e2 | ⟨t2, cc2⟩ <;>
          simp [hos, ho, jsonTruthy]
    · have hoth : sget (sset (saveCache s cc) "graph_access_token" (JVal.str t))
          "other_access_token" = sget s "other_access_token" := by
        rw [sget_sset_ne _ _ _ _ (by decide)]
        exact sget_saveCache_ne s cc _ (by decide)
      simp only [check_authorization, huser, htruthy, hb]
      by_cases hos : (otherScopes == "") = true
      · simp [hos]
      · rcases ho : acquire (parseOtherScopes otherScopes)
            (sget (sset (saveCache s cc) "graph_access_token" (JVal.str t))
              "msal_cache") with e2 | ⟨t2, cc2⟩ <;>
          simp [hos, ho, hoth, jsonTruthy]

/-- Witness for C5: a session with a user and a cached graph token, every
acquisition failing. -/
theorem check_authorization_refresh_fallback_witness :
    sget [("user", JVal.obj [("oid", JVal.str "u1")]),
          ("graph_access_token", JVal.str "cached")] "user"
      = JVal.obj [("oid", JVal.str "u1")] ∧
    jsonTruthy (JVal.obj [("oid", JVal.str "u1")]) = true ∧
    ((check_authorization true "S1.read" (fun _ _ => .error "down") (fun _ => .error "down")
        [("user", JVal.obj [("oid", JVal.str "u1")]),
         ("graph_access_token", JVal.str "cached")]).1.authorized = true ∧
    (check_authorization true "S1.read" (fun _ _ => .error "down") (fun _ => .error "down")
        [("user", JVal.obj [("oid", JVal.str "u1")]),
         ("graph_access_token", JVal.str "cached")]).1.access_token
      = (let g : JVal := match (.error "down" : Except String (String × Option String)) with
           | .ok (t, _) => JVal.str t
           | .error _ => sget [("user", JVal.obj [("oid", JVal.str "u1")]),
               ("graph_access_token", JVal.str "cached")] "graph_access_token"
         let s1 : PyDict := match (.error "down" : Except String (String × Option String)) with
           | .ok (t, c?) => sset (saveCache [("user", JVal.obj [("oid", JVal.str "u1")]),
               ("graph_access_token", JVal.str "cached")] c?) "graph_access_token" (JVal.str t)
           | .error _ => [("user", JVal.obj [("oid", JVal.str "u1")]),
               ("graph_access_token", JVal.str "cached")]
         let o : JVal :=
           if !(("S1.read" : String) == "") then
             match (.error "down" : Except String (String × Option String)) with
             | .ok (t, _) => JVal.str t
             | .error _ => sget [("user", JVal.obj [("oid", JVal.str "u1")]),
                 ("graph_access_token", JVal.str "cached")] "other_access_token"
           else JVal.null
         if jsonTruthy o then o else g)) :=
  ⟨rfl, rfl, check_authorization_refresh_fallback "S1.read"
    (fun _ _ => .error "down") (fun _ => .error "down") _ _ rfl rfl⟩
